import Mathlib

/-!
Verification of the memory-management core of the kfs kernel.

The definitions below are a shallow embedding of the Rust sources under
src/src/memory/.  Machine integers (u32) are modelled as Nat with explicit
reduction modulo 2^32 where the source can wrap; Rust panics are modelled as
Option/Except failures; the singleton mutable state of each component is
passed explicitly.  Bounded for-loops of the source are embedded as
structurally recursive functions on an iteration-count argument equal to the
loop bound, so that every definition computes by kernel reduction.
-/

/-- Modulus of the 32-bit unsigned integers used throughout the kernel. -/
def u32size : Nat := 4294967296

namespace Pmm

/-- Embedding of MemoryRegion (physical_memory_managment.rs, lines 27-31):
a contiguous usable physical range {start_address, size}. -/
structure MemoryRegion where
  start_address : Nat
  size : Nat
deriving DecidableEq

/-- Embedding of the PhysicalMemoryManager state
(physical_memory_managment.rs, lines 37-47): the bitmap words, the used-block
counter, the block capacity and the usable-region table.  The fields
memory_map_size, memory_size and the multiboot fields play no role in the
operations the claims are about and are omitted.  In the running kernel the
self receiver and the object at PMM_ADDRESS are the same singleton, so the
embedding uses one state value. -/
structure PMMState where
  memory_map : List Nat
  used_blocks : Nat
  max_blocks : Nat
  usable_regions : List MemoryRegion
deriving DecidableEq

/-- Embedding of mmap_set (lines 146-154): sets bit `bit` of the bitmap word
at index bit/32 and unconditionally increments used_blocks (u32 add). -/
def mmap_set (s : PMMState) (bit : Nat) : PMMState :=
  let index := bit / 32
  let offset := bit % 32
  { s with
    memory_map := s.memory_map.set index ((s.memory_map.getD index 0) ||| (1 <<< offset)),
    used_blocks := (s.used_blocks + 1) % u32size }

/-- Embedding of mmap_unset (lines 157-164): clears bit `bit` and
unconditionally decrements used_blocks (u32 wrapping subtraction). -/
def mmap_unset (s : PMMState) (bit : Nat) : PMMState :=
  let index := bit / 32
  let offset := bit % 32
  { s with
    memory_map := s.memory_map.set index
      ((s.memory_map.getD index 0) &&& (4294967295 ^^^ (1 <<< offset))),
    used_blocks := (s.used_blocks + (u32size - 1)) % u32size }

/-- Embedding of mmap_test (lines 172-176): whether bit `bit` is set. -/
def mmap_test (s : PMMState) (bit : Nat) : Bool :=
  (s.memory_map.getD (bit / 32) 0) &&& (1 <<< (bit % 32)) ≠ 0

/-- Embedding of the inner loop of allocate_frame (lines 241-247):
first j with j < fuel (called with fuel = 32) counted from `j` upward such
that bit j of word `w` is clear. -/
def findClear32Go (w : Nat) : Nat → Nat → Option Nat
  | _, 0 => none
  | j, fuel + 1 =>
    if w &&& (1 <<< j) = 0 then some j else findClear32Go w (j + 1) fuel

/-- The inner bit scan of allocate_frame over the 32 bits of one word. -/
def findClear32 (w : Nat) : Option Nat := findClear32Go w 0 32

/-- Embedding of the outer scan loop of allocate_frame (lines 239-249):
walks words `i` to `i + fuel - 1` of the bitmap (the source iterates i over
0..max_blocks/32) and returns i*32+j for the first clear bit of the first
word differing from 0xffffffff; the loop variable `frame` keeps its initial
value 0 when no such word exists. -/
def scanWordsGo (mm : List Nat) : Nat → Nat → Nat
  | _, 0 => 0
  | i, fuel + 1 =>
    if mm.getD i 0 ≠ 0xFFFFFFFF then
      match findClear32 (mm.getD i 0) with
      | some j => i * 32 + j
      | none => scanWordsGo mm (i + 1) fuel
    else scanWordsGo mm (i + 1) fuel

/-- Embedding of allocate_frame (lines 226-257): fails when
used_blocks >= max_blocks; otherwise scans for a free frame; a scan result
of 0 is treated as failure; on success sets the bit via mmap_set and returns
frame * 4096 (u32 product). -/
def allocate_frame (s : PMMState) : Except String Nat × PMMState :=
  if s.max_blocks ≤ s.used_blocks then (Except.error "Out of memory", s)
  else
    let frame := scanWordsGo s.memory_map 0 (s.max_blocks / 32)
    if frame ≠ 0 then (Except.ok (frame * 4096 % u32size), mmap_set s frame)
    else (Except.error "Out of memory", s)

/-- Embedding of is_address_usable (lines 298-307): the address lies in some
recorded region, bounds inclusive on both ends. -/
def is_address_usable (s : PMMState) (address : Nat) : Bool :=
  s.usable_regions.any fun r =>
    decide (r.start_address ≤ address) && decide (address ≤ r.start_address + r.size)

/-- Embedding of deallocate_frame (lines 259-263): clears the bit of the
frame containing `address` when the address is inside a usable region. -/
def deallocate_frame (s : PMMState) (address : Nat) : PMMState :=
  if is_address_usable s address then mmap_unset s (address / 4096) else s

/-- Embedding of set_region_as_unavailable (lines 212-224): for each block of
the region, calls mmap_set (which already increments used_blocks) and then
increments used_blocks a second time, mirroring the source loop body
`self.mmap_set(block); self.used_blocks += 1;`. -/
def set_region_as_unavailable (s : PMMState) (region_address region_size : Nat) : PMMState :=
  let start_block := region_address / 4096
  let blocks := region_size / 4096 + (if region_size % 4096 ≠ 0 then 1 else 0)
  (List.range blocks).foldl
    (fun st k =>
      let st1 := mmap_set st (start_block + k)
      { st1 with used_blocks := (st1.used_blocks + 1) % u32size })
    s

/-- Number of set bits among the low 32 bits of one bitmap word. -/
def popcount32 (w : Nat) : Nat := (List.range 32).countP fun j => w.testBit j

/-- Number of set bits of the whole bitmap. -/
def popcount (mm : List Nat) : Nat := mm.foldr (fun w acc => popcount32 w + acc) 0

end Pmm

/-- Claim C1: the counter invariant used_blocks == popcount(bitmap) is claimed
to hold after every PMM operation, each bit set adding exactly one.  The code
violates it: set_region_as_unavailable increments used_blocks twice per block
(once inside mmap_set, once in its own loop body) while setting one bit.
Starting from a consistent state (bitmap [0], counter 0) and marking one
4096-byte region unavailable yields counter 2 but popcount 1. -/
theorem pmm_counter_invariant_broken_by_region_marking :
    (Pmm.set_region_as_unavailable ⟨[0], 0, 32, []⟩ 0 4096).used_blocks = 2 ∧
    Pmm.popcount (Pmm.set_region_as_unavailable ⟨[0], 0, 32, []⟩ 0 4096).memory_map = 1 := by
  constructor
  · rfl
  · decide

/-- Claim C2: with max_blocks = 4 and all frames free, four allocate_frame
calls are claimed to succeed before the fifth fails.  The code fails on the
very first call: the word scan covers max_blocks/32 = 0 words, the scan
variable keeps its default 0, and frame 0 is conflated with failure, so the
call returns Out of memory although used_blocks = 0 < 4. -/
theorem allocate_frame_fails_with_all_frames_free :
    Pmm.allocate_frame ⟨[0], 0, 4, []⟩ =
      (Except.error "Out of memory", ⟨[0], 0, 4, []⟩) := rfl

/-- Claim C3: deallocate_frame is claimed to be idempotent with respect to the
used-block counter.  The code decrements unconditionally in mmap_unset: from
the consistent state (bitmap [1], counter 1), freeing frame 0 twice leaves the
bit clear but wraps the u32 counter to 4294967295, so the second call
decremented again although the bit was already clear. -/
theorem deallocate_frame_double_free_decrements_again :
    (Pmm.deallocate_frame (Pmm.deallocate_frame ⟨[1], 1, 32, [⟨0, 131072⟩]⟩ 0) 0).used_blocks
      = 4294967295 ∧
    (Pmm.deallocate_frame (Pmm.deallocate_frame ⟨[1], 1, 32, [⟨0, 131072⟩]⟩ 0) 0).memory_map
      = [0] := by
  constructor
  · rfl
  · rfl

/-- Helper: reading back an updated bitmap word. -/
theorem list_getD_set_self (l : List Nat) (a v : Nat) (h : a < l.length) :
    (l.set a v).getD a 0 = v := by
  induction l generalizing a with
  | nil => simp at h
  | cons x xs ih =>
    cases a with
    | zero => simp [List.set, List.getD]
    | succ a =>
      simp only [List.set, List.getD_cons_succ]
      exact ih a (by simpa using h)

/-- Helper: the inner bit scan only answers positions holding a clear bit. -/
theorem findClear32Go_spec (w : Nat) :
    ∀ fuel j j', Pmm.findClear32Go w j fuel = some j' →
      j ≤ j' ∧ j' < j + fuel ∧ w &&& (1 <<< j') = 0 := by
  intro fuel
  induction fuel with
  | zero => intro j j' h; simp [Pmm.findClear32Go] at h
  | succ fuel ih =>
    intro j j' h
    simp only [Pmm.findClear32Go] at h
    by_cases hb : w &&& (1 <<< j) = 0
    · simp [hb] at h
      exact ⟨by omega, by omega, by rw [← h]; exact hb⟩
    · simp [hb] at h
      obtain ⟨h1, h2, h3⟩ := ih (j + 1) j' h
      exact ⟨by omega, by omega, h3⟩

/-- Helper: a nonzero result of the word scan names a clear bit inside the
scanned range. -/
theorem scanWordsGo_spec (mm : List Nat) :
    ∀ fuel i, Pmm.scanWordsGo mm i fuel ≠ 0 →
      ∃ a j, Pmm.scanWordsGo mm i fuel = a * 32 + j ∧ i ≤ a ∧ a < i + fuel ∧
        j < 32 ∧ (mm.getD a 0) &&& (1 <<< j) = 0 := by
  intro fuel
  induction fuel with
  | zero => intro i h; simp [Pmm.scanWordsGo] at h
  | succ fuel ih =>
    intro i h
    rw [Pmm.scanWordsGo] at h ⊢
    by_cases hw : mm.getD i 0 ≠ 0xFFFFFFFF
    · rw [if_pos hw] at h ⊢
      revert h
      rcases hf : Pmm.findClear32 (mm.getD i 0) with _ | j
      · intro h
        obtain ⟨a, j, h1, h2, h3, h4, h5⟩ := ih (i + 1) h
        exact ⟨a, j, h1, by omega, by omega, h4, h5⟩
      · intro h
        obtain ⟨h1, h2, h3⟩ := findClear32Go_spec _ 32 0 j hf
        exact ⟨i, j, rfl, by omega, by omega, by omega, h3⟩
    · rw [if_neg hw] at h ⊢
      obtain ⟨a, j, h1, h2, h3, h4, h5⟩ := ih (i + 1) h
      exact ⟨a, j, h1, by omega, by omega, h4, h5⟩

/-- Claim C4: every successful allocate_frame call returns a frame whose
bitmap bit was clear immediately before the call and set after it, and the
returned address is the frame index times 4096 (hence 4096-aligned); the
hypothesis ties the bitmap length to max_blocks/32 as in the kernel, where
the scan would otherwise index out of bounds and panic. -/
theorem allocate_frame_returns_clear_aligned (s s' : Pmm.PMMState) (addr : Nat)
    (hlen : s.memory_map.length = s.max_blocks / 32)
    (hok : Pmm.allocate_frame s = (Except.ok addr, s')) :
    ∃ frame, addr = frame * 4096 % u32size ∧ 4096 ∣ addr ∧
      Pmm.mmap_test s frame = false ∧ Pmm.mmap_test s' frame = true := by
  unfold Pmm.allocate_frame at hok
  by_cases hfull : s.max_blocks ≤ s.used_blocks
  · simp [hfull] at hok
  · simp only [if_neg hfull] at hok
    by_cases hz : Pmm.scanWordsGo s.memory_map 0 (s.max_blocks / 32) ≠ 0
    · simp only [if_pos hz, Prod.mk.injEq, Except.ok.injEq] at hok
      obtain ⟨haddr, hs'⟩ := hok
      obtain ⟨a, j, h1, _, h3, h4, h5⟩ := scanWordsGo_spec s.memory_map (s.max_blocks / 32) 0 hz
      refine ⟨a * 32 + j, ?_, ?_, ?_, ?_⟩
      · rw [← haddr, h1]
      · rw [← haddr]
        have h32 : (4096 : Nat) ∣ u32size := ⟨1048576, rfl⟩
        exact (Nat.dvd_mod_iff h32).mpr ⟨Pmm.scanWordsGo s.memory_map 0 (s.max_blocks / 32),
          by ring⟩
      · have hdiv : (a * 32 + j) / 32 = a := by omega
        have hmod : (a * 32 + j) % 32 = j := by omega
        simp only [Pmm.mmap_test, hdiv, hmod]
        simpa using h5
      · have hdiv : (a * 32 + j) / 32 = a := by omega
        have hmod : (a * 32 + j) % 32 = j := by omega
        have halen : a < s.memory_map.length := by omega
        have hbit : ((s.memory_map.getD a 0) ||| (1 <<< j)) &&& (1 <<< j) ≠ 0 := by
          rw [Nat.one_shiftLeft, Nat.and_two_pow]
          simp [Nat.testBit_or, Nat.testBit_two_pow_self]
        rw [← hs']
        simp only [Pmm.mmap_test, Pmm.mmap_set, h1, hdiv, hmod]
        rw [list_getD_set_self _ _ _ halen]
        simpa using hbit
    · simp [hz] at hok

/-- Witness for C4 at a concrete state: word 0 full, word 1 empty; the call
returns frame 32, address 131072. -/
theorem allocate_frame_returns_clear_aligned_witness :
    ∃ frame, 131072 = frame * 4096 % u32size ∧ 4096 ∣ 131072 ∧
      Pmm.mmap_test ⟨[0xFFFFFFFF, 0], 32, 64, []⟩ frame = false ∧
      Pmm.mmap_test ⟨[0xFFFFFFFF, 1], 33, 64, []⟩ frame = true :=
  allocate_frame_returns_clear_aligned ⟨[0xFFFFFFFF, 0], 32, 64, []⟩
    ⟨[0xFFFFFFFF, 1], 33, 64, []⟩ 131072 rfl rfl

namespace Kmalloc

/-- Arena size of the kernel heap: KERNEL_HEAP_SIZE = 0x100000
(physical_memory_managment.rs line 17); KERNEL_HEAP_END - KERNEL_HEAP_START.
Heap addresses are embedded as offsets from KERNEL_HEAP_START. -/
def KHEAP_SIZE : Nat := 0x100000

/-- KMALLOC_HEADER_SIZE (kmalloc.rs line 27): one packed u32, 4 bytes. -/
def HEADER_SIZE : Nat := 4

/-- MAX_ALLOCATION_SIZE (kmalloc.rs line 17): PAGE_SIZE * 1024 - header. -/
def MAX_ALLOCATION_SIZE : Nat := 4096 * 1024 - HEADER_SIZE

/-- One heap block as described by its KmallocHeader (kmalloc.rs lines
29-61): bit 31 of the header word is the used flag, bits 0..30 hold the total
block size including the header.  The heap is the list of consecutive blocks
obtained by walking the arena from KERNEL_HEAP_START advancing by size, the
well-formedness invariant of the chain (spec section 3). -/
structure KBlock where
  used : Bool
  size : Nat
deriving DecidableEq

/-- Total bytes covered by a block list (the walk distance). -/
def sumSizes (l : List KBlock) : Nat := l.foldr (fun b acc => b.size + acc) 0

/-- Embedding of the heap state: the header chain plus the committed break
KERNEL_HEAP_BREAK, as an offset from KERNEL_HEAP_START. -/
structure KHeap where
  blocks : List KBlock
  brk : Nat
deriving DecidableEq

/-- Size adjustment of kmalloc (kmalloc.rs lines 94-98): add the header size,
then round up to the 32-byte granularity; u32 arithmetic. -/
def roundedSize (n : Nat) : Nat :=
  let size := (n + HEADER_SIZE) % u32size
  if size % 32 ≠ 0 then (size + (32 - size % 32)) % u32size else size

/-- Embedding of the page-stepping loop of kbrk (kmalloc.rs lines 273-312):
advance the break by whole pages until it reaches newBreak; the fuel argument
bounds the iteration count (callers pass at least newBreak - brk, enough
since every step adds 4096). -/
def kbrkLoopGo : Nat → Nat → Nat → Nat
  | 0, brk, _ => brk
  | fuel + 1, brk, newBreak =>
    if brk < newBreak then
      if newBreak ≤ brk + 4096 then brk + 4096
      else kbrkLoopGo fuel (brk + 4096) newBreak
    else brk

/-- Embedding of kbrk (kmalloc.rs lines 266-316): none models the
`panic!("Out of heap memory")` when the new break would pass the arena end;
the commented-out mapping code touches no header, so only the break moves. -/
def kbrk (brk increment : Nat) : Option Nat :=
  if KHEAP_SIZE < brk + increment then none
  else some (kbrkLoopGo (brk + increment) brk (brk + increment))

/-- Embedding of the first-fit walk of kmalloc (kmalloc.rs lines 104-129)
over the block list, tracking the offset of the current header: the first
free block of sufficient size is marked used and resized to the request; when
the old size differs a new free header for the leftover is written right
after the carved region; kbrk is called first when the carved end passes the
break.  Returns (payload offset, new chain, new break); none models both the
kbrk panic and falling off the chain. -/
def kmallocGo (size : Nat) : Nat → Nat → List KBlock → Option (Nat × List KBlock × Nat)
  | _, _, [] => none
  | ofs, brk, b :: rest =>
    if b.used = false ∧ size ≤ b.size then
      match (if brk < ofs + size then kbrk brk size else some brk) with
      | none => none
      | some brk2 =>
        some (ofs + HEADER_SIZE,
          (⟨true, size⟩ : KBlock) ::
            (if b.size = size then rest else (⟨false, b.size - size⟩ : KBlock) :: rest),
          brk2)
    else
      match kmallocGo size (ofs + b.size) brk rest with
      | none => none
      | some (p, l, brk2) => some (p, b :: l, brk2)

/-- Embedding of kmalloc (kmalloc.rs lines 89-131).  The two source error
returns and the kbrk panic are collapsed into the error component; no claim
distinguishes the panic from the heap-exhausted error. -/
def kmalloc (n : Nat) (h : KHeap) : Except String Nat × KHeap :=
  if n = 0 then (Except.error "kmalloc | Attempted to allocate zero bytes", h)
  else
    let size := roundedSize n
    if MAX_ALLOCATION_SIZE < size then
      (Except.error "kmalloc | Attempted to allocate invalid size", h)
    else
      match kmallocGo size 0 h.brk h.blocks with
      | some (p, l, brk2) => (Except.ok p, ⟨l, brk2⟩)
      | none => (Except.error "kmalloc | Insufficient space in kernel heap", h)

/-- Walk to the header at offset `target` and read it, the block-list way of
reading the raw header ksize dereferences at ptr - HEADER_SIZE (kmalloc.rs
lines 335-344): none models the panic on a block not marked used; at a block
start this equals the direct header read of the source. -/
def ksizeGo (target : Nat) : Nat → List KBlock → Option Nat
  | _, [] => none
  | ofs, b :: rest =>
    if ofs = target then (if b.used then some (b.size - HEADER_SIZE) else none)
    else ksizeGo target (ofs + b.size) rest

/-- Embedding of ksize (kmalloc.rs lines 327-345): the recorded usable size,
block size minus header; none models the panics (pointer outside the arena,
block not used).  The null check of the source cannot fire for an in-arena
offset. -/
def ksize (blocks : List KBlock) (p : Nat) : Option Nat :=
  if KHEAP_SIZE ≤ p then none else ksizeGo (p - HEADER_SIZE) 0 blocks

/-- Embedding of the chain walk of kfree (kmalloc.rs lines 148-158): advance
while current <= header_ptr; on hitting the target mark it free; walking past
it (or off the chain) models the final panic. -/
def kfreeGo (target : Nat) : Nat → List KBlock → Option (List KBlock)
  | _, [] => none
  | ofs, b :: rest =>
    if ofs = target then some ((⟨false, b.size⟩ : KBlock) :: rest)
    else if ofs < target then
      match kfreeGo target (ofs + b.size) rest with
      | none => none
      | some l => some (b :: l)
    else none

/-- Embedding of the kdefrag loop (kmalloc.rs lines 202-219): whenever a
block and its successor are both free, absorb the successor into the block
(set_size keeps the used bit) and stay; otherwise advance.  The fuel starts
at the list length, which bounds the iteration count since every step either
shortens the list or advances. -/
def kdefragGo : Nat → List KBlock → List KBlock
  | 0, l => l
  | _ + 1, [] => []
  | _ + 1, [b] => [b]
  | fuel + 1, a :: b :: rest =>
    if a.used = false ∧ b.used = false then
      kdefragGo fuel ((⟨a.used, a.size + b.size⟩ : KBlock) :: rest)
    else a :: kdefragGo fuel (b :: rest)

/-- Eager coalescing over the whole chain, as called by kfree. -/
def kdefrag (l : List KBlock) : List KBlock := kdefragGo l.length l

/-- Embedding of kfree (kmalloc.rs lines 138-164): panic (none) on a pointer
outside the arena or not matching any walked header; otherwise mark the block
free and defragment.  free_unused_frames only returns frames to the PMM and
moves the break; it writes no header, so the chain is fully described here. -/
def kfree (p : Nat) (blocks : List KBlock) : Option (List KBlock) :=
  if KHEAP_SIZE ≤ p then none
  else
    match kfreeGo (p - HEADER_SIZE) 0 blocks with
    | none => none
    | some l => some (kdefrag l)

end Kmalloc

/-- Claim C10: kmalloc(0) always returns an error and leaves the heap header
chain (and break) unchanged: the zero check is the first statement of
kmalloc and returns before any heap access. -/
theorem kmalloc_zero_rejected_heap_unchanged (h : Kmalloc.KHeap) :
    Kmalloc.kmalloc 0 h =
      (Except.error "kmalloc | Attempted to allocate zero bytes", h) := rfl

/-- Witness for C10 at a concrete heap. -/
theorem kmalloc_zero_rejected_heap_unchanged_witness :
    Kmalloc.kmalloc 0 ⟨[⟨false, 0x100000⟩], 0⟩ =
      (Except.error "kmalloc | Attempted to allocate zero bytes",
        ⟨[⟨false, 0x100000⟩], 0⟩) :=
  kmalloc_zero_rejected_heap_unchanged ⟨[⟨false, 0x100000⟩], 0⟩

/-- Helper: a successful first-fit walk hands back the payload offset of a
block that the walk of ksizeGo finds marked used with the requested size;
the new chain covers the same bytes and the payload stays inside the walked
span. -/
theorem kmallocGo_found (size : Nat) (hsz : 5 ≤ size) :
    ∀ (blocks : List Kmalloc.KBlock) (ofs brk p : Nat) (bl : List Kmalloc.KBlock) (brk2 : Nat),
      (∀ b ∈ blocks, 0 < b.size) →
      Kmalloc.kmallocGo size ofs brk blocks = some (p, bl, brk2) →
      Kmalloc.ksizeGo (p - Kmalloc.HEADER_SIZE) ofs bl = some (size - Kmalloc.HEADER_SIZE) ∧
      ofs + Kmalloc.HEADER_SIZE ≤ p ∧
      p + size ≤ ofs + Kmalloc.sumSizes blocks + Kmalloc.HEADER_SIZE ∧
      Kmalloc.sumSizes bl = Kmalloc.sumSizes blocks := by
  intro blocks
  induction blocks with
  | nil => intro ofs brk p bl brk2 _ hgo; simp [Kmalloc.kmallocGo] at hgo
  | cons b rest ih =>
    intro ofs brk p bl brk2 hpos hgo
    rw [Kmalloc.kmallocGo] at hgo
    by_cases hfit : b.used = false ∧ size ≤ b.size
    · rw [if_pos hfit] at hgo
      revert hgo
      rcases (if brk < ofs + size then Kmalloc.kbrk brk size else some brk) with _ | brk3
      · intro hgo; exact absurd hgo (by simp)
      · intro hgo
        simp only [Option.some.injEq, Prod.mk.injEq] at hgo
        obtain ⟨hp, hbl, _⟩ := hgo
        subst hp
        have hofs : ofs + Kmalloc.HEADER_SIZE - Kmalloc.HEADER_SIZE = ofs := by
          simp [Kmalloc.HEADER_SIZE]
        constructor
        · rw [← hbl, Kmalloc.ksizeGo, hofs, if_pos rfl]
          simp
        refine ⟨Nat.le_refl _, ?_, ?_⟩
        · have : size ≤ b.size := hfit.2
          simp only [Kmalloc.sumSizes, List.foldr]
          simp [Kmalloc.HEADER_SIZE]
          omega
        · rw [← hbl]
          by_cases hbs : b.size = size
          · simp [Kmalloc.sumSizes, hbs]
          · simp only [Kmalloc.sumSizes, List.foldr, if_neg hbs]
            have : size ≤ b.size := hfit.2
            omega
    · rw [if_neg hfit] at hgo
      revert hgo
      rcases hrec : Kmalloc.kmallocGo size (ofs + b.size) brk rest with _ | ⟨p2, l, brk3⟩
      · intro hgo; exact absurd hgo (by simp)
      · intro hgo
        simp only [Option.some.injEq, Prod.mk.injEq] at hgo
        obtain ⟨hp, hbl, _⟩ := hgo
        have hbpos : 0 < b.size := hpos b (by simp)
        obtain ⟨ih1, ih2, ih3, ih4⟩ :=
          ih (ofs + b.size) brk p2 l brk3 (fun x hx => hpos x (by simp [hx])) hrec
        subst hp
        refine ⟨?_, ?_, ?_, ?_⟩
        · rw [← hbl, Kmalloc.ksizeGo]
          have hne : ofs ≠ p2 - Kmalloc.HEADER_SIZE := by
            simp only [Kmalloc.HEADER_SIZE] at ih2 ⊢
            omega
          rw [if_neg hne]
          exact ih1
        · simp only [Kmalloc.HEADER_SIZE] at ih2 ⊢
          omega
        · simp only [Kmalloc.sumSizes, List.foldr] at ih3 ⊢
          omega
        · rw [← hbl]
          simp only [Kmalloc.sumSizes, List.foldr] at ih4 ⊢
          omega

/-- Claim C5: whenever kmalloc(n) with 0 < n <= MAX_ALLOCATION_SIZE succeeds
with pointer p, the usable size ksize reads back from the header of p covers
the request: ksize(p) >= n.  The hypotheses state the heap chain
well-formedness the kernel maintains (positive block sizes, chain covering at
most the arena). -/
theorem kmalloc_ksize_covers_request (n p : Nat) (h h2 : Kmalloc.KHeap)
    (hn : 0 < n) (hmax : n ≤ Kmalloc.MAX_ALLOCATION_SIZE)
    (hpos : ∀ b ∈ h.blocks, 0 < b.size)
    (hsum : Kmalloc.sumSizes h.blocks ≤ Kmalloc.KHEAP_SIZE)
    (hok : Kmalloc.kmalloc n h = (Except.ok p, h2)) :
    ∃ s, Kmalloc.ksize h2.blocks p = some s ∧ n ≤ s := by
  have hn0 : n ≠ 0 := Nat.pos_iff_ne_zero.mp hn
  rw [Kmalloc.kmalloc, if_neg hn0] at hok
  set size := Kmalloc.roundedSize n with hsizedef
  have hmax4 : Kmalloc.MAX_ALLOCATION_SIZE = 4194300 := rfl
  have hn4 : n + 4 < u32size := by
    rw [hmax4] at hmax; simp [u32size]; omega
  have hsize : n + 4 ≤ size ∧ size ≤ n + 35 := by
    rw [hsizedef, Kmalloc.roundedSize]
    simp only [Kmalloc.HEADER_SIZE]
    rw [Nat.mod_eq_of_lt hn4]
    by_cases hr : (n + 4) % 32 ≠ 0
    · rw [if_pos hr]
      have h32 : (n + 4) % 32 < 32 := Nat.mod_lt _ (by omega)
      rw [Nat.mod_eq_of_lt (by simp [u32size]; omega)]
      omega
    · rw [if_neg hr]; omega
  by_cases hbig : Kmalloc.MAX_ALLOCATION_SIZE < size
  · rw [if_pos hbig] at hok
    exact absurd hok (by simp)
  · rw [if_neg hbig] at hok
    revert hok
    rcases hgo : Kmalloc.kmallocGo size 0 h.brk h.blocks with _ | ⟨p2, l, brk2⟩
    · intro hok; exact absurd hok (by simp)
    · intro hok
      simp only [Prod.mk.injEq, Except.ok.injEq] at hok
      obtain ⟨hp, hh2⟩ := hok
      subst hp
      obtain ⟨hks, hge, hbound, _⟩ :=
        kmallocGo_found size (by omega) h.blocks 0 h.brk p2 l brk2 hpos hgo
      refine ⟨size - Kmalloc.HEADER_SIZE, ?_, ?_⟩
      · rw [← hh2]
        show Kmalloc.ksize l p2 = some (size - Kmalloc.HEADER_SIZE)
        rw [Kmalloc.ksize]
        have hlt : p2 < Kmalloc.KHEAP_SIZE := by
          simp only [Kmalloc.HEADER_SIZE] at hge hbound
          have : Kmalloc.KHEAP_SIZE = 1048576 := rfl
          omega
        rw [if_neg (by omega)]
        exact hks
      · simp only [Kmalloc.HEADER_SIZE]
        omega

/-- Witness for C5: a fresh one-block arena, request 5 bytes; the allocation
returns offset 4 and ksize reads back 28 >= 5. -/
theorem kmalloc_ksize_covers_request_witness :
    ∃ s, Kmalloc.ksize ([⟨true, 32⟩, ⟨false, 1048544⟩] : List Kmalloc.KBlock) 4 = some s ∧
      5 ≤ s :=
  kmalloc_ksize_covers_request 5 4 ⟨[⟨false, 0x100000⟩], 0⟩
    ⟨[⟨true, 32⟩, ⟨false, 1048544⟩], 4096⟩ (by omega) (by decide)
    (by simp) (by decide) rfl

namespace Vmalloc

/-- Embedding of VmallocHeader (vmalloc.rs lines 18-26): positional prev and
next links (addresses, 0 = null), total block size including header, the
corruption-detection magic and the used flag (u16, USED = 1, FREE = 0). -/
structure VHeader where
  prev : Nat
  next : Nat
  size : Nat
  magic : Nat
  used : Nat
deriving DecidableEq

/-- The vmalloc arena memory, addressable header by header: the value
returned for an address is the header the source would read there. -/
def VMem : Type := Nat → VHeader

/-- A raw header write at one address. -/
def writeHdr (m : VMem) (a : Nat) (h : VHeader) : VMem :=
  fun x => if x = a then h else m x

/-- VMALLOC_MAGIC (vmalloc.rs line 5). -/
def VMALLOC_MAGIC : Nat := 0xCAFE

/-- VMALLOC_HEADER_SIZE (vmalloc.rs line 12). -/
def HEADER_SIZE : Nat := 16

/-- The all-zero header written by VmallocHeader::reset (lines 43-49). -/
def resetHeader : VHeader := ⟨0, 0, 0, 0, 0⟩

/-- Embedding of the vmalloc-arena kfree (vmalloc.rs lines 133-191): read the
header one header-size before the pointer (none models the unwrap panic on a
null header pointer); log and return unchanged on magic mismatch or on a
block already free; otherwise mark free, coalesce with the structural
successor when free (absorb its size, splice the links, reset it), then with
the predecessor likewise.  Reads and writes follow the statement order of the
source so aliased link cycles behave identically. -/
def kfree (mem : VMem) (vmalloc_address : Nat) : Option VMem :=
  if vmalloc_address - HEADER_SIZE = 0 then none
  else
    let h := vmalloc_address - HEADER_SIZE
    if (mem h).magic ≠ VMALLOC_MAGIC then some mem
    else if (mem h).used = 0 then some mem
    else
      let mem1 := writeHdr mem h { mem h with used := 0 }
      let mem2 :=
        if (mem1 h).next ≠ 0 then
          if (mem1 ((mem1 h).next)).used = 0 then
            let nh := (mem1 h).next
            let nnext := (mem1 nh).next
            let m1 := writeHdr mem1 h
              { mem1 h with size := ((mem1 h).size + (mem1 nh).size) % u32size, next := nnext }
            let m2 := if nnext ≠ 0 then writeHdr m1 nnext { m1 nnext with prev := h } else m1
            writeHdr m2 nh resetHeader
          else mem1
        else mem1
      if (mem2 h).prev ≠ 0 then
        if (mem2 ((mem2 h).prev)).used = 0 then
          let ph := (mem2 h).prev
          let m1 := writeHdr mem2 ph
            { mem2 ph with size := ((mem2 ph).size + (mem2 h).size) % u32size,
                           next := (mem2 h).next }
          let m2 := if (mem2 h).next ≠ 0 then
              writeHdr m1 ((mem2 h).next) { m1 ((mem2 h).next) with prev := ph }
            else m1
          some (writeHdr m2 h resetHeader)
        else some mem2
      else some mem2

end Vmalloc

/-- Helper shared by the error-handling claims: both early-return paths of the
vmalloc kfree (bad magic, already free) hand the memory back untouched. -/
theorem vmalloc_kfree_invalid_aux (mem : Vmalloc.VMem) (addr : Nat)
    (hnn : Vmalloc.HEADER_SIZE < addr)
    (hbad : (mem (addr - Vmalloc.HEADER_SIZE)).magic ≠ Vmalloc.VMALLOC_MAGIC ∨
      (mem (addr - Vmalloc.HEADER_SIZE)).used = 0) :
    Vmalloc.kfree mem addr = some mem := by
  have hne : ¬(addr - Vmalloc.HEADER_SIZE = 0) := by
    simp only [Vmalloc.HEADER_SIZE] at hnn ⊢
    omega
  rw [Vmalloc.kfree, if_neg hne]
  rcases hbad with hm | hu
  · rw [if_pos hm]
  · by_cases hm : (mem (addr - Vmalloc.HEADER_SIZE)).magic ≠ Vmalloc.VMALLOC_MAGIC
    · rw [if_pos hm]
    · rw [if_neg hm, if_pos hu]

/-- Claim C9: in the vmalloc arena, kfree on a pointer whose preceding header
has a wrong magic, or whose block is already marked free, returns with every
header unchanged: both checks return before any write. -/
theorem vmalloc_kfree_invalid_leaves_arena_unchanged
    (mem : Vmalloc.VMem) (addr : Nat)
    (hnn : Vmalloc.HEADER_SIZE < addr)
    (hbad : (mem (addr - Vmalloc.HEADER_SIZE)).magic ≠ Vmalloc.VMALLOC_MAGIC ∨
      (mem (addr - Vmalloc.HEADER_SIZE)).used = 0) :
    Vmalloc.kfree mem addr = some mem :=
  vmalloc_kfree_invalid_aux mem addr hnn hbad

/-- A vmalloc arena image whose every header is zeroed (magic 0). -/
def vmemZero : Vmalloc.VMem := fun _ => ⟨0, 0, 0, 0, 0⟩

/-- Witness for C9: freeing pointer 32 over the zeroed arena (header at 16
has magic 0, not 0xCAFE) leaves the memory unchanged. -/
theorem vmalloc_kfree_invalid_leaves_arena_unchanged_witness :
    Vmalloc.kfree vmemZero 32 = some vmemZero :=
  vmalloc_kfree_invalid_leaves_arena_unchanged vmemZero 32 (by decide)
    (Or.inl (by decide))

/-- Helper: sumSizes of the empty chain. -/
theorem sumSizes_nil : Kmalloc.sumSizes [] = 0 := rfl

/-- Helper: sumSizes of a cons. -/
theorem sumSizes_cons (b : Kmalloc.KBlock) (l : List Kmalloc.KBlock) :
    Kmalloc.sumSizes (b :: l) = b.size + Kmalloc.sumSizes l := rfl

/-- Helper: sumSizes distributes over append. -/
theorem sumSizes_append (P Q : List Kmalloc.KBlock) :
    Kmalloc.sumSizes (P ++ Q) = Kmalloc.sumSizes P + Kmalloc.sumSizes Q := by
  induction P with
  | nil => simp [sumSizes_nil]
  | cons b P ih => simp [sumSizes_cons, ih]; omega

/-- Helper: the kfree chain walk passes over a prefix of positive-size blocks
lying strictly below the target offset. -/
theorem kfreeGo_skip (P : List Kmalloc.KBlock) :
    ∀ (ofs t : Nat) (rest : List Kmalloc.KBlock),
      (∀ b ∈ P, 0 < b.size) → ofs + Kmalloc.sumSizes P ≤ t →
      Kmalloc.kfreeGo t ofs (P ++ rest) =
        (Kmalloc.kfreeGo t (ofs + Kmalloc.sumSizes P) rest).map (fun l => P ++ l) := by
  induction P with
  | nil =>
    intro ofs t rest _ _
    simp only [List.nil_append, sumSizes_nil, Nat.add_zero]
    cases Kmalloc.kfreeGo t ofs rest <;> simp
  | cons b P ih =>
    intro ofs t rest hpos hle
    have hb : 0 < b.size := hpos b (by simp)
    rw [sumSizes_cons] at hle
    have hlt : ofs < t := by omega
    rw [List.cons_append, Kmalloc.kfreeGo, if_neg (by omega), if_pos hlt,
      ih (ofs + b.size) t rest (fun x hx => hpos x (by simp [hx])) (by omega)]
    rw [sumSizes_cons]
    have harr : ofs + (b.size + Kmalloc.sumSizes P) = ofs + b.size + Kmalloc.sumSizes P := by
      omega
    rw [harr]
    cases Kmalloc.kfreeGo t (ofs + b.size + Kmalloc.sumSizes P) rest <;> simp

/-- Helper: the chain walk frees the block sitting exactly at the target. -/
theorem kfreeGo_hit (t : Nat) (b : Kmalloc.KBlock) (rest : List Kmalloc.KBlock) :
    Kmalloc.kfreeGo t t (b :: rest) = some ((⟨false, b.size⟩ : Kmalloc.KBlock) :: rest) := by
  rw [Kmalloc.kfreeGo, if_pos rfl]

/-- Helper: kdefragGo on the empty chain. -/
theorem kdefragGo_nil (f : Nat) : Kmalloc.kdefragGo f [] = [] := by
  cases f <;> rfl

/-- Helper: kdefrag never merges across a used block: it emits it and moves
on. -/
theorem kdefragGo_cons_used (f : Nat) (a : Kmalloc.KBlock) (rest : List Kmalloc.KBlock)
    (ha : a.used = true) :
    Kmalloc.kdefragGo (f + 1) (a :: rest) = a :: Kmalloc.kdefragGo f rest := by
  cases rest with
  | nil => rw [kdefragGo_nil]; rfl
  | cons c cs =>
    rw [Kmalloc.kdefragGo, if_neg]
    simp [ha]

/-- Helper: a chain of used blocks is a fixed point of kdefragGo. -/
theorem kdefragGo_all_used (l : List Kmalloc.KBlock) :
    ∀ f, (∀ x ∈ l, x.used = true) → Kmalloc.kdefragGo f l = l := by
  induction l with
  | nil => intro f _; exact kdefragGo_nil f
  | cons a rest ih =>
    intro f hu
    cases f with
    | zero => rfl
    | succ f =>
      rw [kdefragGo_cons_used f a rest (hu a (by simp)),
        ih f (fun x hx => hu x (by simp [hx]))]

/-- Helper: kdefragGo walks over a used prefix unchanged. -/
theorem kdefragGo_append_used (P : List Kmalloc.KBlock) :
    ∀ (f : Nat) (rest : List Kmalloc.KBlock), (∀ x ∈ P, x.used = true) →
      Kmalloc.kdefragGo (P.length + f) (P ++ rest) = P ++ Kmalloc.kdefragGo f rest := by
  induction P with
  | nil => intro f rest _; simp
  | cons a P ih =>
    intro f rest hu
    have : (a :: P).length + f = (P.length + f) + 1 := by simp; omega
    rw [List.cons_append, this, kdefragGo_cons_used _ _ _ (hu a (by simp)),
      ih f rest (fun x hx => hu x (by simp [hx])), List.cons_append]

/-- Helper: a free block followed only by used blocks stays as it is. -/
theorem kdefragGo_free_then_used (S : List Kmalloc.KBlock) (x : Kmalloc.KBlock)
    (hx : x.used = false) (hS : ∀ c ∈ S, c.used = true) :
    Kmalloc.kdefragGo (S.length + 1) (x :: S) = x :: S := by
  cases S with
  | nil => rfl
  | cons c cs =>
    have hc : c.used = true := hS c (by simp)
    rw [Kmalloc.kdefragGo, if_neg (by simp [hc])]
    have : cs.length + 1 = cs.length + 1 := rfl
    rw [show (c :: cs).length = cs.length + 1 from rfl] at *
    rw [kdefragGo_cons_used _ _ _ hc, kdefragGo_all_used cs cs.length
      (fun y hy => hS y (by simp [hy]))]

/-- Helper: kfree on the payload pointer of the block following a prefix of
positive-size blocks frees exactly that block and defragments. -/
theorem kfree_at_block_start (P : List Kmalloc.KBlock) (x : Kmalloc.KBlock)
    (rest : List Kmalloc.KBlock)
    (hpos : ∀ b ∈ P, 0 < b.size)
    (hlt : Kmalloc.sumSizes P + Kmalloc.HEADER_SIZE < Kmalloc.KHEAP_SIZE) :
    Kmalloc.kfree (Kmalloc.sumSizes P + Kmalloc.HEADER_SIZE) (P ++ x :: rest) =
      some (Kmalloc.kdefrag (P ++ (⟨false, x.size⟩ : Kmalloc.KBlock) :: rest)) := by
  rw [Kmalloc.kfree, if_neg (by omega)]
  have ht : Kmalloc.sumSizes P + Kmalloc.HEADER_SIZE - Kmalloc.HEADER_SIZE
      = Kmalloc.sumSizes P := by omega
  rw [ht, kfreeGo_skip P 0 (Kmalloc.sumSizes P) (x :: rest) hpos (by omega), Nat.zero_add,
    kfreeGo_hit]
  rfl

/-- Helper: kfree on the payload pointer of the second block after the prefix
steps over the first and frees the second. -/
theorem kfree_at_second_block (P : List Kmalloc.KBlock) (x y : Kmalloc.KBlock)
    (rest : List Kmalloc.KBlock)
    (hpos : ∀ b ∈ P, 0 < b.size) (hx : 0 < x.size)
    (hlt : Kmalloc.sumSizes P + x.size + Kmalloc.HEADER_SIZE < Kmalloc.KHEAP_SIZE) :
    Kmalloc.kfree (Kmalloc.sumSizes P + x.size + Kmalloc.HEADER_SIZE)
        (P ++ x :: y :: rest) =
      some (Kmalloc.kdefrag (P ++ x :: (⟨false, y.size⟩ : Kmalloc.KBlock) :: rest)) := by
  rw [Kmalloc.kfree, if_neg (by omega)]
  have ht : Kmalloc.sumSizes P + x.size + Kmalloc.HEADER_SIZE - Kmalloc.HEADER_SIZE
      = Kmalloc.sumSizes P + x.size := by omega
  have hassoc : P ++ x :: y :: rest = (P ++ [x]) ++ y :: rest := by simp
  have hsum : Kmalloc.sumSizes (P ++ [x]) = Kmalloc.sumSizes P + x.size := by
    rw [sumSizes_append, sumSizes_cons, sumSizes_nil]; omega
  have hpos2 : ∀ b ∈ P ++ [x], 0 < b.size := by
    intro c hc
    rcases List.mem_append.mp hc with h | h
    · exact hpos c h
    · simp at h; subst h; exact hx
  rw [ht, hassoc, kfreeGo_skip (P ++ [x]) 0 (Kmalloc.sumSizes P + x.size) (y :: rest) hpos2
    (by rw [hsum]; omega), Nat.zero_add, hsum, kfreeGo_hit]
  show some (Kmalloc.kdefrag ((P ++ [x]) ++ (⟨false, y.size⟩ : Kmalloc.KBlock) :: rest)) = _
  simp

/-- Helper: a pair headed by a used block is untouched by defragmentation
when the tail is used. -/
theorem kdefragGo_pair_head_used (x y : Kmalloc.KBlock) (S : List Kmalloc.KBlock)
    (hxu : x.used = true) (hS : ∀ c ∈ S, c.used = true) :
    Kmalloc.kdefragGo ((x :: y :: S).length) (x :: y :: S) = x :: y :: S := by
  simp only [List.length_cons]
  rw [Kmalloc.kdefragGo, if_neg (by simp [hxu])]
  by_cases hyu : y.used = true
  · rw [kdefragGo_cons_used _ _ _ hyu, kdefragGo_all_used S S.length hS]
  · rw [kdefragGo_free_then_used S y (by simpa using hyu) hS]

/-- Helper: a pair whose second block is used is untouched by
defragmentation when the tail is used. -/
theorem kdefragGo_pair_second_used (x y : Kmalloc.KBlock) (S : List Kmalloc.KBlock)
    (hyu : y.used = true) (hS : ∀ c ∈ S, c.used = true) :
    Kmalloc.kdefragGo ((x :: y :: S).length) (x :: y :: S) = x :: y :: S := by
  simp only [List.length_cons]
  rw [Kmalloc.kdefragGo, if_neg (by simp [hyu]), kdefragGo_cons_used _ _ _ hyu,
    kdefragGo_all_used S S.length hS]

/-- Helper: two adjacent free blocks over a used tail merge into one free
block carrying the summed size. -/
theorem kdefragGo_pair_free (x y : Kmalloc.KBlock) (S : List Kmalloc.KBlock)
    (hxf : x.used = false) (hyf : y.used = false) (hS : ∀ c ∈ S, c.used = true) :
    Kmalloc.kdefragGo ((x :: y :: S).length) (x :: y :: S) =
      (⟨false, x.size + y.size⟩ : Kmalloc.KBlock) :: S := by
  simp only [List.length_cons]
  rw [Kmalloc.kdefragGo, if_pos ⟨hxf, hyf⟩, hxf]
  exact kdefragGo_free_then_used S _ rfl hS

/-- Helper: defragmentation leaves a used prefix in place and works on the
tail. -/
theorem kdefrag_append_used (P rest : List Kmalloc.KBlock)
    (hP : ∀ x ∈ P, x.used = true) :
    Kmalloc.kdefrag (P ++ rest) = P ++ Kmalloc.kdefragGo rest.length rest := by
  rw [Kmalloc.kdefrag, List.length_append, kdefragGo_append_used P rest.length rest hP]

/-- Helper: freeing the first of two adjacent used vmalloc blocks, with used
neighbours, only clears its used flag: the successor is still used and the
predecessor is used, so no coalescing fires. -/
theorem vmalloc_free_first_no_coalesce (mem : Vmalloc.VMem) (hp hA hB hn sA sB : Nat)
    (hmA : mem hA = ⟨hp, hB, sA, 0xCAFE, 1⟩)
    (hmB : mem hB = ⟨hA, hn, sB, 0xCAFE, 1⟩)
    (hpu : (mem hp).used ≠ 0)
    (hA0 : hA ≠ 0) (hB0 : hB ≠ 0) (hp0 : hp ≠ 0)
    (hAB : hA ≠ hB) (hpA : hp ≠ hA) :
    Vmalloc.kfree mem (hA + 16) =
      some (Vmalloc.writeHdr mem hA ⟨hp, hB, sA, 0xCAFE, 0⟩) := by
  have hBA : ¬(hB = hA) := fun h => hAB h.symm
  simp [Vmalloc.kfree, Vmalloc.writeHdr, Vmalloc.HEADER_SIZE, Vmalloc.VMALLOC_MAGIC,
    hmA, hmB, hA0, hB0, hp0, hBA, hpA, hpu]

/-- Helper: freeing the second of two adjacent used vmalloc blocks, with used
neighbours, only clears its used flag. -/
theorem vmalloc_free_second_no_coalesce (mem : Vmalloc.VMem) (hp hA hB hn sA sB : Nat)
    (hmA : mem hA = ⟨hp, hB, sA, 0xCAFE, 1⟩)
    (hmB : mem hB = ⟨hA, hn, sB, 0xCAFE, 1⟩)
    (hnu : (mem hn).used ≠ 0)
    (hA0 : hA ≠ 0) (hB0 : hB ≠ 0) (hn0 : hn ≠ 0)
    (hAB : hA ≠ hB) (hnB : hn ≠ hB) :
    Vmalloc.kfree mem (hB + 16) =
      some (Vmalloc.writeHdr mem hB ⟨hA, hn, sB, 0xCAFE, 0⟩) := by
  have hAB' : ¬(hA = hB) := hAB
  have hnB' : ¬(hn = hB) := hnB
  simp [Vmalloc.kfree, Vmalloc.writeHdr, Vmalloc.HEADER_SIZE, Vmalloc.VMALLOC_MAGIC,
    hmA, hmB, hA0, hB0, hn0, hAB', hnB', hnu]

/-- Helper: freeing the second block when the first is already free merges
backwards: the first header absorbs the second block's size, takes over its
successor link, the successor's prev is rewired, and the second header is
reset. -/
theorem vmalloc_free_second_coalesces (mem : Vmalloc.VMem) (hp hA hB hn sA sB : Nat)
    (hmB : mem hB = ⟨hA, hn, sB, 0xCAFE, 1⟩)
    (hnu : (mem hn).used ≠ 0)
    (hA0 : hA ≠ 0) (hB0 : hB ≠ 0) (hn0 : hn ≠ 0)
    (hAB : hA ≠ hB) (hnA : hn ≠ hA) (hnB : hn ≠ hB) :
    Vmalloc.kfree (Vmalloc.writeHdr mem hA ⟨hp, hB, sA, 0xCAFE, 0⟩) (hB + 16) =
      some (fun x =>
        if x = hA then ⟨hp, hn, (sA + sB) % u32size, 0xCAFE, 0⟩
        else if x = hB then Vmalloc.resetHeader
        else if x = hn then { mem x with prev := hA }
        else mem x) := by
  have hAB' : ¬(hA = hB) := hAB
  have hBA : ¬(hB = hA) := fun h => hAB h.symm
  have hnA' : ¬(hn = hA) := hnA
  have hnB' : ¬(hn = hB) := hnB
  simp only [Vmalloc.kfree, Vmalloc.writeHdr, Vmalloc.HEADER_SIZE, Vmalloc.VMALLOC_MAGIC,
    Nat.add_sub_cancel, hmB, hAB', hBA, hnA', hnB', hA0, hB0, hn0, hnu,
    if_true, if_false, ne_eq, ite_true, ite_false, not_false_eq_true]
  refine congrArg some (funext fun x => ?_)
  by_cases hxB : x = hB
  · subst hxB
    simp [Vmalloc.writeHdr, hBA]
  · by_cases hxn : x = hn
    · subst hxn
      simp [Vmalloc.writeHdr, hxB, hnA']
    · by_cases hxA : x = hA
      · subst hxA
        have hAn : ¬(x = hn) := fun h => hnA h.symm
        simp [Vmalloc.writeHdr, hxB, hAn]
      · simp [Vmalloc.writeHdr, hxB, hxn, hxA]

/-- Helper: freeing the first block when the second is already free merges
forwards: the first header absorbs the second block's size and successor
link, the successor's prev is rewired, the second header is reset, and the
used predecessor stops any further merge. -/
theorem vmalloc_free_first_coalesces (mem : Vmalloc.VMem) (hp hA hB hn sA sB : Nat)
    (hmA : mem hA = ⟨hp, hB, sA, 0xCAFE, 1⟩)
    (hpu : (mem hp).used ≠ 0)
    (hA0 : hA ≠ 0) (hB0 : hB ≠ 0) (hp0 : hp ≠ 0) (hn0 : hn ≠ 0)
    (hAB : hA ≠ hB) (hpA : hp ≠ hA) (hpB : hp ≠ hB) (hpn : hp ≠ hn)
    (hnA : hn ≠ hA) (hnB : hn ≠ hB) :
    Vmalloc.kfree (Vmalloc.writeHdr mem hB ⟨hA, hn, sB, 0xCAFE, 0⟩) (hA + 16) =
      some (fun x =>
        if x = hA then ⟨hp, hn, (sA + sB) % u32size, 0xCAFE, 0⟩
        else if x = hB then Vmalloc.resetHeader
        else if x = hn then { mem x with prev := hA }
        else mem x) := by
  have hAB' : ¬(hA = hB) := hAB
  have hBA : ¬(hB = hA) := fun h => hAB h.symm
  have hnA' : ¬(hn = hA) := hnA
  have hnB' : ¬(hn = hB) := hnB
  have hpA' : ¬(hp = hA) := hpA
  have hpB' : ¬(hp = hB) := hpB
  have hpn' : ¬(hp = hn) := hpn
  have hAn : ¬(hA = hn) := fun h => hnA h.symm
  simp only [Vmalloc.kfree, Vmalloc.writeHdr, Vmalloc.HEADER_SIZE, Vmalloc.VMALLOC_MAGIC,
    Nat.add_sub_cancel, hmA, hAB', hBA, hnA', hnB', hpA', hpB', hpn', hAn, hA0, hB0,
    hp0, hn0, hpu, if_true, if_false, ne_eq, ite_true, ite_false,
    not_false_eq_true]
  refine congrArg some (funext fun x => ?_)
  by_cases hxB : x = hB
  · subst hxB
    simp [Vmalloc.writeHdr, hBA]
  · by_cases hxn : x = hn
    · subst hxn
      simp [Vmalloc.writeHdr, hxB, hnA']
    · by_cases hxA : x = hA
      · subst hxA
        simp [Vmalloc.writeHdr, hxB, hAn]
      · simp [Vmalloc.writeHdr, hxB, hxn, hxA]

/-- Claim C7: freeing two structurally adjacent allocated blocks, in either
order of the two kfree calls, leaves the arena with exactly one free block
whose size is the sum of the two block sizes.  Proved for both allocators.
In the kmalloc chain the surrounding blocks are used (the merged block is
the only free one), every block exceeds its header as every block kmalloc
creates does (minimum block size 32), and the chain covers at most the
arena, which includes the exactly tiling chains kernel_heap_init builds.
In the vmalloc arena the two blocks sit between used neighbours at distinct
nonnull addresses, and both free orders produce the identical memory: one
free header carrying the summed size, the absorbed header reset, and the
successor relinked. -/
theorem coalescing_order_independent
    (P S : List Kmalloc.KBlock) (a b : Kmalloc.KBlock)
    (mem : Vmalloc.VMem) (hp hA hB hn sA sB : Nat)
    (hPu : ∀ x ∈ P, x.used = true) (hSu : ∀ x ∈ S, x.used = true)
    (hPpos : ∀ x ∈ P, 0 < x.size)
    (hau : a.used = true) (hbu : b.used = true)
    (hsa : Kmalloc.HEADER_SIZE < a.size) (hsb : Kmalloc.HEADER_SIZE < b.size)
    (hbound : Kmalloc.sumSizes (P ++ a :: b :: S) ≤ Kmalloc.KHEAP_SIZE)
    (hmA : mem hA = ⟨hp, hB, sA, 0xCAFE, 1⟩)
    (hmB : mem hB = ⟨hA, hn, sB, 0xCAFE, 1⟩)
    (hpu : (mem hp).used ≠ 0) (hnu : (mem hn).used ≠ 0)
    (hA0 : hA ≠ 0) (hB0 : hB ≠ 0) (hp0 : hp ≠ 0) (hn0 : hn ≠ 0)
    (hAB : hA ≠ hB) (hpA : hp ≠ hA) (hpB : hp ≠ hB) (hpn : hp ≠ hn)
    (hnA : hn ≠ hA) (hnB : hn ≠ hB) :
    (Kmalloc.kfree (Kmalloc.sumSizes P + Kmalloc.HEADER_SIZE) (P ++ a :: b :: S)).bind
        (fun l => Kmalloc.kfree (Kmalloc.sumSizes P + a.size + Kmalloc.HEADER_SIZE) l) =
      some (P ++ (⟨false, a.size + b.size⟩ : Kmalloc.KBlock) :: S) ∧
    (Kmalloc.kfree (Kmalloc.sumSizes P + a.size + Kmalloc.HEADER_SIZE)
          (P ++ a :: b :: S)).bind
        (fun l => Kmalloc.kfree (Kmalloc.sumSizes P + Kmalloc.HEADER_SIZE) l) =
      some (P ++ (⟨false, a.size + b.size⟩ : Kmalloc.KBlock) :: S) ∧
    (Vmalloc.kfree mem (hA + 16)).bind (fun m => Vmalloc.kfree m (hB + 16)) =
      some (fun x =>
        if x = hA then ⟨hp, hn, (sA + sB) % u32size, 0xCAFE, 0⟩
        else if x = hB then Vmalloc.resetHeader
        else if x = hn then { mem x with prev := hA }
        else mem x) ∧
    (Vmalloc.kfree mem (hB + 16)).bind (fun m => Vmalloc.kfree m (hA + 16)) =
      some (fun x =>
        if x = hA then ⟨hp, hn, (sA + sB) % u32size, 0xCAFE, 0⟩
        else if x = hB then Vmalloc.resetHeader
        else if x = hn then { mem x with prev := hA }
        else mem x) := by
  have hsumL : Kmalloc.sumSizes (P ++ a :: b :: S) =
      Kmalloc.sumSizes P + (a.size + (b.size + Kmalloc.sumSizes S)) := by
    rw [sumSizes_append, sumSizes_cons, sumSizes_cons]
  rw [hsumL] at hbound
  have hb1 : Kmalloc.sumSizes P + Kmalloc.HEADER_SIZE < Kmalloc.KHEAP_SIZE := by omega
  have hb2 : Kmalloc.sumSizes P + a.size + Kmalloc.HEADER_SIZE < Kmalloc.KHEAP_SIZE := by
    omega
  have hsa0 : 0 < a.size := by omega
  refine ⟨?_, ?_, ?_, ?_⟩
  · -- kmalloc arena: free a first, then b
    rw [kfree_at_block_start P a (b :: S) hPpos hb1]
    rw [kdefrag_append_used P _ hPu,
      kdefragGo_pair_second_used (⟨false, a.size⟩ : Kmalloc.KBlock) b S hbu hSu]
    simp only [Option.some_bind]
    rw [kfree_at_second_block P (⟨false, a.size⟩ : Kmalloc.KBlock) b S hPpos
      (by simpa using hsa0) (by simpa using hb2)]
    rw [kdefrag_append_used P _ hPu,
      kdefragGo_pair_free (⟨false, a.size⟩ : Kmalloc.KBlock)
        (⟨false, b.size⟩ : Kmalloc.KBlock) S rfl rfl hSu]
  · -- kmalloc arena: free b first, then a
    rw [kfree_at_second_block P a b S hPpos hsa0 hb2]
    rw [kdefrag_append_used P _ hPu, kdefragGo_pair_head_used a
      (⟨false, b.size⟩ : Kmalloc.KBlock) S hau hSu]
    simp only [Option.some_bind]
    rw [kfree_at_block_start P a ((⟨false, b.size⟩ : Kmalloc.KBlock) :: S) hPpos hb1]
    rw [kdefrag_append_used P _ hPu,
      kdefragGo_pair_free (⟨false, a.size⟩ : Kmalloc.KBlock)
        (⟨false, b.size⟩ : Kmalloc.KBlock) S rfl rfl hSu]
  · -- vmalloc arena: free the first block, then the second
    rw [vmalloc_free_first_no_coalesce mem hp hA hB hn sA sB hmA hmB hpu hA0 hB0 hp0
      hAB hpA]
    simp only [Option.some_bind]
    exact vmalloc_free_second_coalesces mem hp hA hB hn sA sB hmB hnu hA0 hB0 hn0
      hAB hnA hnB
  · -- vmalloc arena: free the second block, then the first
    rw [vmalloc_free_second_no_coalesce mem hp hA hB hn sA sB hmA hmB hnu hA0 hB0 hn0
      hAB hnB]
    simp only [Option.some_bind]
    exact vmalloc_free_first_coalesces mem hp hA hB hn sA sB hmA hpu hA0 hB0 hp0 hn0
      hAB hpA hpB hpn hnA hnB

/-- A concrete vmalloc arena image: used blocks of sizes 48 and 64 at headers
48 and 96, flanked by used headers at 16 and 160. -/
def vmemPair : Vmalloc.VMem := fun x =>
  if x = 48 then ⟨16, 96, 48, 0xCAFE, 1⟩
  else if x = 96 then ⟨48, 160, 64, 0xCAFE, 1⟩
  else ⟨0, 0, 32, 0xCAFE, 1⟩

/-- Witness for C7: in the kmalloc chain, two adjacent used 32-byte blocks
alone in the arena, freed at offsets 4 and 36 in either order, merge into
the single free 64-byte block; in the vmalloc arena the pair at headers 48
and 96, freed in either order, merges into one free 112-byte block at 48
with header 96 reset and header 160 relinked. -/
theorem coalescing_order_independent_witness :
    (Kmalloc.kfree 4 [⟨true, 32⟩, ⟨true, 32⟩]).bind
        (fun l => Kmalloc.kfree 36 l) = some [⟨false, 64⟩] ∧
    (Kmalloc.kfree 36 [⟨true, 32⟩, ⟨true, 32⟩]).bind
        (fun l => Kmalloc.kfree 4 l) = some [⟨false, 64⟩] ∧
    (Vmalloc.kfree vmemPair (48 + 16)).bind (fun m => Vmalloc.kfree m (96 + 16)) =
      some (fun x =>
        if x = 48 then ⟨16, 160, (48 + 64) % u32size, 0xCAFE, 0⟩
        else if x = 96 then Vmalloc.resetHeader
        else if x = 160 then { vmemPair x with prev := 48 }
        else vmemPair x) ∧
    (Vmalloc.kfree vmemPair (96 + 16)).bind (fun m => Vmalloc.kfree m (48 + 16)) =
      some (fun x =>
        if x = 48 then ⟨16, 160, (48 + 64) % u32size, 0xCAFE, 0⟩
        else if x = 96 then Vmalloc.resetHeader
        else if x = 160 then { vmemPair x with prev := 48 }
        else vmemPair x) :=
  coalescing_order_independent [] [] ⟨true, 32⟩ ⟨true, 32⟩ vmemPair 16 48 96 160 48 64
    (by simp) (by simp) (by simp) rfl rfl (by decide) (by decide) (by decide)
    rfl rfl (by decide) (by decide) (by decide) (by decide) (by decide) (by decide)
    (by decide) (by decide) (by decide) (by decide) (by decide) (by decide)

/-- A vmalloc arena image describing one already-free block at header 16
(magic valid, used = 0): the double-free configuration. -/
def vmemFreeBlock : Vmalloc.VMem := fun _ => ⟨0, 0, 32, 0xCAFE, 0⟩

/-- Counterexample to claim C6: neither arena halts as the claim requires.
In the kmalloc arena, freeing pointer 4 whose block is already free completes
normally (some, not the none that models a panic) and silently re-marks the
block free; in the vmalloc arena, freeing pointer 32 over a valid-magic but
already-free header is detected yet merely returns the arena unchanged
instead of halting. -/
theorem kfree_double_free_not_fatal :
    Kmalloc.kfree 4 [⟨false, 0x100000⟩] = some [⟨false, 0x100000⟩] ∧
    Vmalloc.kfree vmemFreeBlock 32 = some vmemFreeBlock := by
  constructor
  · rfl
  · rfl

/-- Claim C6 as amended: the kmalloc kfree treats as fatal only a pointer
outside the arena (and, by its chain walk, one matching no header); it has no
sentinel and no double-free detection, so freeing an already-free block
completes normally with the block still marked free.  The vmalloc kfree
detects both the sentinel mismatch and the double free but logs and returns
with the arena unchanged rather than halting. -/
theorem kfree_error_detection_behavior :
    (∀ (p : Nat) (blocks : List Kmalloc.KBlock), Kmalloc.KHEAP_SIZE ≤ p →
      Kmalloc.kfree p blocks = none) ∧
    (∀ (P rest : List Kmalloc.KBlock) (s : Nat),
      (∀ b ∈ P, 0 < b.size) →
      Kmalloc.sumSizes P + Kmalloc.HEADER_SIZE < Kmalloc.KHEAP_SIZE →
      Kmalloc.kfree (Kmalloc.sumSizes P + Kmalloc.HEADER_SIZE)
          (P ++ (⟨false, s⟩ : Kmalloc.KBlock) :: rest) =
        some (Kmalloc.kdefrag (P ++ (⟨false, s⟩ : Kmalloc.KBlock) :: rest))) ∧
    (∀ (mem : Vmalloc.VMem) (addr : Nat), Vmalloc.HEADER_SIZE < addr →
      ((mem (addr - Vmalloc.HEADER_SIZE)).magic ≠ Vmalloc.VMALLOC_MAGIC ∨
        (mem (addr - Vmalloc.HEADER_SIZE)).used = 0) →
      Vmalloc.kfree mem addr = some mem) := by
  refine ⟨?_, ?_, ?_⟩
  · intro p blocks hp
    rw [Kmalloc.kfree, if_pos hp]
  · intro P rest s hpos hlt
    exact kfree_at_block_start P (⟨false, s⟩ : Kmalloc.KBlock) rest hpos hlt
  · intro mem addr hnn hbad
    exact vmalloc_kfree_invalid_aux mem addr hnn hbad

/-- Witness for the amended C6 at concrete inputs: an out-of-arena pointer is
fatal; a double free at offset 4 completes with the block still free; the
vmalloc kfree hands the zeroed arena back unchanged on a bad magic. -/
theorem kfree_error_detection_behavior_witness :
    Kmalloc.kfree 1048576 [] = none ∧
    Kmalloc.kfree 4 [⟨false, 32⟩] = some (Kmalloc.kdefrag [⟨false, 32⟩]) ∧
    Vmalloc.kfree vmemZero 32 = some vmemZero :=
  ⟨kfree_error_detection_behavior.1 1048576 [] (by decide),
    kfree_error_detection_behavior.2.1 [] [] 32 (by simp) (by decide),
    kfree_error_detection_behavior.2.2 vmemZero 32 (by decide) (Or.inl (by decide))⟩

namespace Paging

/-- PAGE_SIZE and ENTRY_COUNT (page_directory.rs lines 11-12). -/
def PAGE_SIZE : Nat := 4096

/-- Entries per table and per directory. -/
def ENTRY_COUNT : Nat := 1024

/-- PageTableFlags::PRESENT (page_table_entry.rs line 7). -/
def PTE_PRESENT : Nat := 1

/-- PageTableFlags::WRITABLE (page_table_entry.rs line 8). -/
def PTE_WRITABLE : Nat := 2

/-- PageTableFlags::FRAME (page_table_entry.rs line 17): note the mask keeps
bits 12..30 only, dropping bit 31 of a frame address. -/
def PTE_FRAME_MASK : Nat := 0x7FFFF000

/-- A page table: 1024 raw u32 entry values, indexed by table index; indices
are always reduced below 1024 by the callers, mirroring the fixed array. -/
structure PageTable where
  entries : Nat → Nat

/-- PageTableEntry::is_present (page_table_entry.rs lines 75-77). -/
def pteIsPresent (v : Nat) : Bool := v &&& PTE_PRESENT ≠ 0

/-- PageTableEntry::frame (page_table_entry.rs lines 84-87). -/
def pteFrame (v : Nat) : Nat := v &&& PTE_FRAME_MASK

/-- PageTable::translate (page_table.rs lines 101-109): index the entry at
virt_addr / PAGE_SIZE % ENTRY_COUNT; when present, the physical address is
the entry frame bits OR the page offset of the virtual address. -/
def PageTable.translate (t : PageTable) (va : Nat) : Option Nat :=
  let index := va / PAGE_SIZE % ENTRY_COUNT
  let entry := t.entries index
  if pteIsPresent entry then some (pteFrame entry ||| (va &&& (PAGE_SIZE - 1))) else none

/-- Modelled from the spec: PageTable::map, called as
page_table.map(table_index, frame, PRESENT | WRITABLE) by PageDirectory::map
(page_directory.rs line 118), is absent from the sources (only commented-out
variants exist in page_table.rs).  Spec section 4.2: map writes
(frame | flags | PRESENT) into the resolved table entry. -/
def PageTable.mapEntry (t : PageTable) (index frame flagsBits : Nat) : PageTable :=
  ⟨fun i => if i = index then frame ||| flagsBits ||| PTE_PRESENT else t.entries i⟩

/-- A page directory: the raw u32 directory entry values plus, per index, the
page table the entry points to.  The pointer dereference of
get_page_table (page_directory.rs lines 53-60) is represented by the tables
field keyed by directory index: init_pages attaches the i-th pre-reserved
table to slot i, so a present entry designates exactly that table. -/
structure PageDirectory where
  dirEntries : Nat → Nat
  tables : Nat → PageTable

/-- PageDirectoryEntry::get_page_table (page_directory.rs lines 53-60): the
attached table when the entry is present, none otherwise. -/
def get_page_table (d : PageDirectory) (index : Nat) : Option PageTable :=
  if d.dirEntries index &&& PTE_PRESENT ≠ 0 then some (d.tables index) else none

/-- PageDirectory::map (page_directory.rs lines 111-119): OR the given flags
into the directory entry (add_attribute), resolve the page table (the unwrap
panics, modelled none, when the entry is not present even after the OR), and
write the entry at (va >> 12) & 0x3FF through the spec-modelled
PageTable.mapEntry with PRESENT | WRITABLE.  The embedding requires flags to
stay out of the address bits of the directory entry for the tables-by-index
representation to match the pointer indirection of the source. -/
def PageDirectory.map (d : PageDirectory) (va frame flags : Nat) : Option PageDirectory :=
  let index := (va >>> 22) &&& 0x3FF
  let newEntry := d.dirEntries index ||| flags
  if newEntry &&& PTE_PRESENT ≠ 0 then
    some ⟨fun i => if i = index then newEntry else d.dirEntries i,
      fun i => if i = index then
          PageTable.mapEntry (d.tables index) ((va >>> 12) &&& 0x3FF) frame
            (PTE_PRESENT ||| PTE_WRITABLE)
        else d.tables i⟩
  else none

/-- Reading the resolved table entry for va: resolve the table through the
directory as the source does, then translate. -/
def resolveTranslate (d : PageDirectory) (va : Nat) : Option Nat :=
  match get_page_table d ((va >>> 22) &&& 0x3FF) with
  | none => none
  | some t => t.translate va

end Paging

/-- Helper: masking with an all-ones low mask is reduction modulo the power
of two. -/
theorem and_mask_eq_mod (x n : Nat) : x &&& (2 ^ n - 1) = x % 2 ^ n := by
  apply Nat.eq_of_testBit_eq
  intro i
  rw [Nat.testBit_and, Nat.testBit_two_pow_sub_one, Nat.testBit_mod_two_pow]
  exact Bool.and_comm _ _

/-- Helper: the table index computed by map equals the one translate uses. -/
theorem table_index_eq (va : Nat) : (va >>> 12) &&& 0x3FF = va / 4096 % 1024 := by
  rw [Nat.shiftRight_eq_div_pow]
  rw [show (0x3FF : Nat) = 2 ^ 10 - 1 from rfl, and_mask_eq_mod]
  norm_num

/-- Helper: ORing flags into a word keeps bit 0 set. -/
theorem or_keeps_bit0 (x y : Nat) (hx : x &&& 1 ≠ 0) : (x ||| y) &&& 1 ≠ 0 := by
  have e1 : (1 : Nat) = 2 ^ 0 := rfl
  rw [e1, Nat.and_two_pow] at hx ⊢
  rw [Nat.testBit_or]
  cases hxb : x.testBit 0 with
  | false => rw [hxb] at hx; simp at hx
  | true => simp [hxb]

/-- Helper: bit i of the frame mask 0x7FFFF000. -/
theorem testBit_pte_frame_mask (i : Nat) :
    (0x7FFFF000 : Nat).testBit i = (decide (12 ≤ i) && decide (i < 31)) := by
  have h : (0x7FFFF000 : Nat) = (2 ^ 19 - 1) <<< 12 := by
    rw [Nat.shiftLeft_eq]; norm_num
  rw [h, Nat.testBit_shiftLeft, Nat.testBit_two_pow_sub_one]
  by_cases h12 : 12 ≤ i
  · have h1 : decide (12 ≤ i) = true := by simp [h12]
    rw [h1, Bool.true_and]
    exact decide_eq_decide.mpr (by omega)
  · simp [h12]

/-- Helper: for a page-aligned frame below 2^31, ORing page-offset-sized flag
bits and masking with the entry frame mask gives the frame back. -/
theorem or_low_and_mask (frame low : Nat) (hal : frame % 4096 = 0)
    (hlt : frame < 2147483648) (hlow : low < 4096) :
    (frame ||| low) &&& 0x7FFFF000 = frame := by
  obtain ⟨k, hk⟩ : ∃ k, frame = k * 4096 := ⟨frame / 4096, by omega⟩
  have hk19 : k < 524288 := by omega
  have hfbit : ∀ j, frame.testBit j = (decide (12 ≤ j) && k.testBit (j - 12)) := by
    intro j
    rw [hk, show (4096 : Nat) = 2 ^ 12 from rfl, ← Nat.shiftLeft_eq, Nat.testBit_shiftLeft]
  apply Nat.eq_of_testBit_eq
  intro i
  rw [Nat.testBit_and, Nat.testBit_or, testBit_pte_frame_mask]
  by_cases h12 : 12 ≤ i
  · by_cases h31 : i < 31
    · have hlowbit : low.testBit i = false := by
        apply Nat.testBit_lt_two_pow
        calc low < 4096 := hlow
          _ = 2 ^ 12 := rfl
          _ ≤ 2 ^ i := Nat.pow_le_pow_right (by omega) h12
      simp [h12, h31, hlowbit]
    · have hfr : frame.testBit i = false := by
        rw [hfbit]
        have hkb : k.testBit (i - 12) = false := by
          apply Nat.testBit_lt_two_pow
          calc k < 524288 := hk19
            _ = 2 ^ 19 := rfl
            _ ≤ 2 ^ (i - 12) := Nat.pow_le_pow_right (by omega) (by omega)
        simp [hkb]
      simp [h12, h31, hfr]
  · have hfr : frame.testBit i = false := by simp [hfbit, h12]
    simp [h12, hfr]

/-- A concrete directory: every entry present (value 1), every attached table
zeroed. -/
def testDirectory : Paging.PageDirectory := ⟨fun _ => 1, fun _ => ⟨fun _ => 0⟩⟩

/-- Counterexample to claim C8: the page-aligned frame 0x80000000 is lost by
the translation because the entry frame mask 0x7FFFF000 drops bit 31:
map(0, 0x80000000, 0) succeeds, yet reading the resolved entry translates
virtual 0 to physical 0 instead of 0x80000000. -/
theorem map_translate_drops_high_frame_bit :
    (Paging.PageDirectory.map testDirectory 0 0x80000000 0).bind
        (fun d => Paging.resolveTranslate d 0) = some 0 ∧
    (0x80000000 : Nat) % 4096 = 0 ∧ (0x80000000 : Nat) ||| (0 &&& 0xFFF) = 0x80000000 := by
  refine ⟨?_, by norm_num, by rfl⟩
  rfl

/-- Claim C8 as amended: for a page-aligned frame below 2^31 (so that it
survives the 0x7FFFF000 entry frame mask), mapping va to it through a
directory whose entry for va is present, with flag bits outside the
directory address field, makes the translation of va through the resolved
table entry yield frame | (va & 0xFFF). -/
theorem map_translate_yields_frame_or_offset (d : Paging.PageDirectory)
    (va frame flags : Nat)
    (hpres : d.dirEntries ((va >>> 22) &&& 0x3FF) &&& 1 ≠ 0)
    (hflags : flags &&& 0xFFFFF000 = 0)
    (hal : frame % 4096 = 0) (hfr : frame < 2147483648) :
    (Paging.PageDirectory.map d va frame flags).bind
        (fun d2 => Paging.resolveTranslate d2 va) =
      some (frame ||| (va &&& 0xFFF)) := by
  have hp1 : (d.dirEntries ((va >>> 22) &&& 0x3FF) ||| flags) &&& 1 ≠ 0 :=
    or_keeps_bit0 _ flags hpres
  have hentry : frame ||| (1 ||| 2) ||| 1 = frame ||| 3 := by
    rw [Nat.lor_assoc]
    congr 1
  have hbit : ¬((frame ||| 3) &&& 1 = 0) := by
    rw [Nat.lor_comm]
    exact or_keeps_bit0 3 frame (by decide)
  have hfr2 : (frame ||| 3) &&& 0x7FFFF000 = frame :=
    or_low_and_mask frame 3 hal hfr (by norm_num)
  simp only [Paging.PageDirectory.map, Paging.resolveTranslate, Paging.get_page_table,
    Paging.PageTable.translate, Paging.PageTable.mapEntry, Paging.pteIsPresent,
    Paging.pteFrame, Paging.PTE_PRESENT, Paging.PTE_WRITABLE, Paging.PTE_FRAME_MASK,
    Paging.PAGE_SIZE, Paging.ENTRY_COUNT, hp1, ne_eq, not_false_eq_true, if_true,
    Option.some_bind, eq_self_iff_true, hentry, hbit, hfr2]
  have hcond : va / 4096 % 1024 = (va >>> 12) &&& 0x3FF := (table_index_eq va).symm
  simp only [hcond, eq_self_iff_true, if_true]
  have hbit2 : (decide ¬((frame ||| 3) &&& 1 = 0)) = true := by simp [hbit]
  simp only [hbit2, eq_self_iff_true, if_true, hfr2]

/-- Witness for the amended C8: directory with all entries present, va
0x12345, frame 0x6000; the resolved translation is 0x6345. -/
theorem map_translate_yields_frame_or_offset_witness :
    (Paging.PageDirectory.map testDirectory 0x12345 0x6000 0).bind
        (fun d2 => Paging.resolveTranslate d2 0x12345) =
      some (0x6000 ||| (0x12345 &&& 0xFFF)) :=
  map_translate_yields_frame_or_offset testDirectory 0x12345 0x6000 0 (by decide)
    (by decide) (by norm_num) (by norm_num)
